import Mathlib

/-!
Shallow embedding of the personal task manager in
src/personal-task-manager/src/App.js.

Modelling conventions:
- JS timestamps (Date.now(), ISO instants, date strings compared through
  new Date) are Nat epoch values.
- A JS field that can be absent is an Option; completedAt can additionally
  hold the JS value null, so it is Option (Option Nat): none is an absent
  field, some none is null, some (some n) is a timestamp.
- toggleComplete dereferences tasks.find(...) without a guard; on an
  unknown id the JS code throws a TypeError, so the embedding returns
  Option (List Task) with none for the thrown exception.
- JS truthiness on the optional string/date fields: the empty string and
  an absent field are both falsy; dueDate is Option Nat with none for
  either, description keeps the empty string and the isEmpty guard.
-/

namespace TaskManager

inductive Priority where
  | low
  | medium
  | high
deriving DecidableEq, Repr

/-- priorityOrder = \x7b high: 3, medium: 2, low: 1 \x7d in the sort comparator. -/
def priorityOrder : Priority → Nat
  | .high => 3
  | .medium => 2
  | .low => 1

/-- A task record as built by addTask and mutated by updateTask. -/
structure Task where
  id : Nat
  title : String
  description : Option String
  priority : Priority
  dueDate : Option Nat
  completed : Bool
  createdAt : Nat
  completedAt : Option (Option Nat)
deriving DecidableEq, Repr

/-- The TaskForm formData object: title, description, priority, dueDate.
This is the draft passed to addTask and to updateTask on edit submit. -/
structure Draft where
  title : String
  description : Option String
  priority : Priority
  dueDate : Option Nat
deriving DecidableEq, Repr

/-- A JS updates object for updateTask: each field is either absent from
the object (outer none) or present with a value that overwrites the
task's field on spread merge. -/
structure Updates where
  title : Option String := none
  description : Option (Option String) := none
  priority : Option Priority := none
  dueDate : Option (Option Nat) := none
  completed : Option Bool := none
  completedAt : Option (Option (Option Nat)) := none
deriving DecidableEq, Repr

/-- The spread merge \x7b ...task, ...updates \x7d: fields present in the
updates object overwrite the task's fields; id is never in an updates
object built by this app, so it is kept. -/
def applyUpdates (t : Task) (u : Updates) : Task :=
  { id := t.id
    title := u.title.getD t.title
    description := u.description.getD t.description
    priority := u.priority.getD t.priority
    dueDate := u.dueDate.getD t.dueDate
    completed := u.completed.getD t.completed
    createdAt := t.createdAt
    completedAt := u.completedAt.getD t.completedAt }

/-- The updates object the edit-submit handler passes: exactly the four
formData fields, all present. -/
def editUpdates (d : Draft) : Updates :=
  { title := some d.title
    description := some d.description
    priority := some d.priority
    dueDate := some d.dueDate }

/-- addTask: id := Date.now(), draft fields spread in, completed := false,
createdAt := the current instant, new task appended. -/
def addTask (d : Draft) (now : Nat) (tasks : List Task) : List Task :=
  tasks ++ [{ id := now
              title := d.title
              description := d.description
              priority := d.priority
              dueDate := d.dueDate
              completed := false
              createdAt := now
              completedAt := none }]

/-- updateTask: map over the collection, merging updates into every task
whose id matches. -/
def updateTask (id : Nat) (u : Updates) (tasks : List Task) : List Task :=
  tasks.map (fun t => if t.id = id then applyUpdates t u else t)

/-- deleteTask: window.confirm gates the filter that drops the id. -/
def deleteTask (id : Nat) (confirm : Bool) (tasks : List Task) : List Task :=
  if confirm then tasks.filter (fun t => !(t.id == id)) else tasks

/-- The updates object toggleComplete builds from the found task:
completed flipped, completedAt set to the current instant when the task
becomes complete and to the JS value null when it becomes incomplete. -/
def toggleUpdates (t : Task) (now : Nat) : Updates :=
  { completed := some (!t.completed)
    completedAt := some (if !t.completed then some (some now) else some none) }

/-- toggleComplete: find the task, then updateTask with the toggle
updates. When find returns undefined the JS code throws on the field
access, modelled as none. -/
def toggleComplete (id : Nat) (now : Nat) (tasks : List Task) :
    Option (List Task) :=
  match tasks.find? (fun t => t.id == id) with
  | none => none
  | some t => some (updateTask id (toggleUpdates t now) tasks)

/-- Leading-match helper for the substring check: the needle matches at
the head of the haystack. -/
def leadMatch : List Char → List Char → Bool
  | [], _ => true
  | _ :: _, [] => false
  | a :: as, b :: bs => a == b && leadMatch as bs

/-- Occurrence search over the haystack, one position at a time. -/
def subOccurs (needle : List Char) : List Char → Bool
  | [] => leadMatch needle []
  | hay@(_ :: rest) => leadMatch needle hay || subOccurs needle rest

/-- JS String.prototype.toLowerCase, on the string's character list. -/
def lowerData (s : String) : List Char :=
  s.data.map Char.toLower

/-- JS String.prototype.includes on lowercased strings: does the needle
occur in the haystack? includes of the empty string is true. -/
def jsIncludes (hay needle : String) : Bool :=
  subOccurs (lowerData needle) (lowerData hay)

/-- The matchesSearch clause of the filter predicate:
title.toLowerCase().includes(term.toLowerCase()) OR the
truthiness-guarded description clause (an absent or empty description
contributes no match). -/
def matchesSearch (t : Task) (searchTerm : String) : Bool :=
  jsIncludes t.title searchTerm ||
    (match t.description with
     | none => false
     | some d => !d.data.isEmpty && jsIncludes d searchTerm)

/-- The six values the filter select can hold. -/
inductive Filter where
  | all
  | pending
  | completed
  | high
  | medium
  | low
deriving DecidableEq, Repr

/-- The switch on the filter value inside the filter callback. -/
def passesFilter (t : Task) (f : Filter) (searchTerm : String) : Bool :=
  match f with
  | .completed => t.completed && matchesSearch t searchTerm
  | .pending => !t.completed && matchesSearch t searchTerm
  | .high => (t.priority == .high) && matchesSearch t searchTerm
  | .medium => (t.priority == .medium) && matchesSearch t searchTerm
  | .low => (t.priority == .low) && matchesSearch t searchTerm
  | .all => matchesSearch t searchTerm

/-- filteredTasks = tasks.filter(callback). -/
def filteredTasks (tasks : List Task) (f : Filter) (searchTerm : String) :
    List Task :=
  tasks.filter (fun t => passesFilter t f searchTerm)

/-- The stats object, computed from the full collection and the clock. -/
structure Stats where
  total : Nat
  completed : Nat
  pending : Nat
  overdue : Nat
deriving DecidableEq, Repr

/-- Truthiness-guarded overdue test: !task.completed && task.dueDate &&
new Date(task.dueDate) < new Date(). -/
def isOverdue (t : Task) (now : Nat) : Bool :=
  !t.completed &&
    (match t.dueDate with
     | none => false
     | some d => d < now)

/-- The statistics dashboard values. -/
def statsOf (tasks : List Task) (now : Nat) : Stats :=
  { total := tasks.length
    completed := (tasks.filter (fun t => t.completed)).length
    pending := (tasks.filter (fun t => !t.completed)).length
    overdue := (tasks.filter (fun t => isOverdue t now)).length }

/-- The sort comparator: completion status first, then priority
descending, then due date ascending when both dates are present,
otherwise creation timestamp descending. -/
def cmpT (a b : Task) : Int :=
  if a.completed ≠ b.completed then
    (if a.completed then 1 else -1)
  else if a.priority ≠ b.priority then
    (priorityOrder b.priority : Int) - (priorityOrder a.priority : Int)
  else
    match a.dueDate, b.dueDate with
    | some da, some db => (da : Int) - (db : Int)
    | _, _ => (b.createdAt : Int) - (a.createdAt : Int)

/-- Stable sort with the comparator, as a JS engine's stable
Array.prototype.sort: an element is placed before those it compares
less-than-or-equal to. -/
def sortTasks (tasks : List Task) : List Task :=
  tasks.insertionSort (fun a b => cmpT a b ≤ 0)

/-- sortedTasks = filteredTasks.sort(comparator). -/
def sortedTasks (tasks : List Task) (f : Filter) (searchTerm : String) :
    List Task :=
  sortTasks (filteredTasks tasks f searchTerm)

/-- One user-visible mutation of the store: the four actions the UI can
fire. update carries the edit-submit draft; add and toggle carry the
clock value read during the action; delete carries the confirm answer. -/
inductive Op where
  | add (d : Draft) (now : Nat)
  | update (id : Nat) (d : Draft)
  | toggle (id : Nat) (now : Nat)
  | delete (id : Nat) (confirm : Bool)
deriving DecidableEq, Repr

/-- One step of the store; none when the action throws (toggle on an
unknown id). -/
def step (tasks : List Task) : Op → Option (List Task)
  | .add d now => some (addTask d now tasks)
  | .update id d => some (updateTask id (editUpdates d) tasks)
  | .toggle id now => toggleComplete id now tasks
  | .delete id confirm => some (deleteTask id confirm tasks)

/-- Run a sequence of actions from a starting collection. -/
def runFrom (tasks : List Task) : List Op → Option (List Task)
  | [] => some tasks
  | op :: ops =>
      match step tasks op with
      | none => none
      | some tasks2 => runFrom tasks2 ops

/-- Run a sequence of actions from the empty collection. -/
def run (ops : List Op) : Option (List Task) :=
  runFrom [] ops

/-- The clock values consumed by the add actions of a sequence. -/
def addTimes : List Op → List Nat
  | [] => []
  | .add _ now :: ops => now :: addTimes ops
  | _ :: ops => addTimes ops

/-! Concrete records used by witnesses and counterexamples. -/

/-- A sample incomplete task with id 1. -/
def sampleTask : Task :=
  { id := 1
    title := "Buy milk"
    description := some "2 liters"
    priority := .high
    dueDate := some 100
    completed := false
    createdAt := 10
    completedAt := none }

/-- A sample draft as the add form submits it. -/
def sampleDraft : Draft :=
  { title := "t", description := none, priority := .medium, dueDate := none }

/-- The task addTask builds from sampleDraft at clock value 1. -/
def freshTask : Task :=
  { id := 1
    title := "t"
    description := none
    priority := .medium
    dueDate := none
    completed := false
    createdAt := 1
    completedAt := none }

/-- freshTask after one toggle at clock value 2. -/
def toggledOnTask : Task :=
  { freshTask with completed := true, completedAt := some (some 2) }

/-- freshTask after a second toggle: completed is false again but
completedAt is the JS value null, not an absent field. -/
def toggledOffTask : Task :=
  { freshTask with completed := false, completedAt := some none }

/-- The task addTask builds from sampleDraft at clock value 5. -/
def task5 : Task :=
  { id := 5
    title := "t"
    description := none
    priority := .medium
    dueDate := none
    completed := false
    createdAt := 5
    completedAt := none }

/-! Basic facts about the store operations. -/

theorem applyUpdates_id (t : Task) (u : Updates) : (applyUpdates t u).id = t.id :=
  rfl

theorem updateTask_map_id (i : Nat) (u : Updates) (ts : List Task) :
    (updateTask i u ts).map Task.id = ts.map Task.id := by
  induction ts with
  | nil => rfl
  | cons t ts ih =>
      by_cases hc : t.id = i <;>
        simp [updateTask, hc, applyUpdates_id] at ih ⊢ <;> exact ih

theorem find?_updateTask (i : Nat) (u : Updates) (ts : List Task) :
    (updateTask i u ts).find? (fun t => t.id == i)
      = (ts.find? (fun t => t.id == i)).map (fun t => applyUpdates t u) := by
  induction ts with
  | nil => rfl
  | cons t ts ih =>
      by_cases hc : t.id = i
      · simp [updateTask, List.find?_cons_of_pos, hc, applyUpdates_id]
      · have e1 : updateTask i u (t :: ts) = t :: updateTask i u ts := by
          simp [updateTask, if_neg hc]
        rw [e1, List.find?_cons_of_neg _ (by simp [hc]),
          List.find?_cons_of_neg _ (by simp [hc]), ih]

/-- C1 counterexample: on the one-task collection whose only id is 1, the
unknown id 2 makes toggleComplete throw (the model's none), so the claim
that no error is signalled fails. -/
theorem C1_counterexample :
    sampleTask.id ≠ 2 ∧ toggleComplete 2 7 [sampleTask] = none := by
  decide

/-- C1 (amended): for an id not present in the collection, updateTask and
deleteTask are no-ops with no error, while toggleComplete signals an
error (the JS code throws on the undefined find result). -/
theorem C1_unknown_id (i : Nat) (u : Updates) (c : Bool) (now : Nat)
    (ts : List Task) (h : ∀ t ∈ ts, t.id ≠ i) :
    updateTask i u ts = ts ∧ deleteTask i c ts = ts ∧
      toggleComplete i now ts = none := by
  refine ⟨?_, ?_, ?_⟩
  · unfold updateTask
    have h2 : ∀ t ∈ ts, (if t.id = i then applyUpdates t u else t) = t := by
      intro t ht
      simp [h t ht]
    induction ts with
    | nil => rfl
    | cons t ts ih =>
        simp only [List.map_cons, h2 t (by simp)]
        have := ih (fun t ht => h t (by simp [ht]))
          (fun t ht => h2 t (by simp [ht]))
        simp [this]
  · unfold deleteTask
    cases c
    · rfl
    · simp only [if_pos]
      refine List.filter_eq_self.mpr ?_
      intro t ht
      simp [h t ht]
  · unfold toggleComplete
    rw [List.find?_eq_none.mpr (by intro t ht; simp [h t ht])]

/-- Witness for C1 at the concrete collection [sampleTask] and the
unknown id 2. -/
theorem C1_unknown_id_witness :
    updateTask 2 {} [sampleTask] = [sampleTask] ∧
      deleteTask 2 true [sampleTask] = [sampleTask] ∧
      toggleComplete 2 7 [sampleTask] = none :=
  C1_unknown_id 2 {} true 7 [sampleTask] (by decide)

/-- C9: for a draft with a non-empty title, addTask grows the collection
by exactly one, appends the new task at the end leaving all earlier tasks
in place, and the new task has completed = false and the creation
timestamp as its createdAt. -/
theorem C9_addTask (d : Draft) (now : Nat) (ts : List Task)
    (_h : d.title ≠ "") :
    (addTask d now ts).length = ts.length + 1 ∧
      ∃ t, addTask d now ts = ts ++ [t] ∧ t.completed = false ∧
        t.createdAt = now ∧ t.id = now ∧ t.title = d.title := by
  exact ⟨by simp [addTask], ⟨_, rfl, rfl, rfl, rfl, rfl⟩⟩

/-- Witness for C9 on the empty collection and the sample draft. -/
theorem C9_addTask_witness :
    (addTask sampleDraft 5 ([] : List Task)).length = ([] : List Task).length + 1 ∧
      ∃ t, addTask sampleDraft 5 ([] : List Task) = ([] : List Task) ++ [t] ∧
        t.completed = false ∧
        t.createdAt = 5 ∧ t.id = 5 ∧ t.title = sampleDraft.title :=
  C9_addTask sampleDraft 5 ([] : List Task) (by decide)

/-- C10: updating a task with the edit-submit draft (title, description,
priority, dueDate) keeps the collection's length and order, preserves
the target's id, completed, completedAt and createdAt fields, and leaves
every task with a different id unchanged. -/
theorem C10_updateTask_frame (i : Nat) (d : Draft) (ts : List Task) :
    (updateTask i (editUpdates d) ts).length = ts.length ∧
      ∀ (j : Nat) (t t2 : Task), ts[j]? = some t →
        (updateTask i (editUpdates d) ts)[j]? = some t2 →
        t2.id = t.id ∧ t2.completed = t.completed ∧
          t2.completedAt = t.completedAt ∧ t2.createdAt = t.createdAt ∧
          (t.id ≠ i → t2 = t) := by
  constructor
  · simp [updateTask]
  · intro j t t2 hj hj2
    rw [updateTask, List.getElem?_map, hj] at hj2
    simp only [Option.map_some', Option.some.injEq] at hj2
    by_cases hc : t.id = i
    · rw [← hj2]
      simp [hc, applyUpdates, editUpdates]
    · rw [← hj2]
      simp [hc]

/-! The filter predicate against the spec's wording (C6), and the filter
partition and overdue statistics claims. -/

/-- Modelled from the spec: the text-match clause as §4.2 words it, a
case-insensitive substring match against title OR description, an absent
description contributing no match. -/
def specTextMatch (t : Task) (searchTerm : String) : Prop :=
  jsIncludes t.title searchTerm = true ∨
    ∃ d, t.description = some d ∧ jsIncludes d searchTerm = true

/-- Modelled from the spec: the category-match clause of §4.2: all passes
everything, pending/completed compare the completed flag, high/medium/low
compare the priority exactly. -/
def specCategoryMatch (t : Task) (f : Filter) : Prop :=
  match f with
  | .all => True
  | .pending => t.completed = false
  | .completed => t.completed = true
  | .high => t.priority = .high
  | .medium => t.priority = .medium
  | .low => t.priority = .low

theorem subOccurs_nil (hay : List Char) : subOccurs [] hay = true := by
  cases hay <;> simp [subOccurs, leadMatch]

theorem leadMatch_nil_hay (needle : List Char) :
    leadMatch needle [] = true → needle = [] := by
  cases needle <;> simp [leadMatch]

theorem matchesSearch_iff (t : Task) (s : String) :
    matchesSearch t s = true ↔ specTextMatch t s := by
  unfold matchesSearch specTextMatch
  rw [Bool.or_eq_true]
  constructor
  · rintro (h1 | h2)
    · exact Or.inl h1
    · rcases ht : t.description with _ | d
      · rw [ht] at h2
        simp at h2
      · rw [ht] at h2
        simp only [Bool.and_eq_true] at h2
        exact Or.inr ⟨d, rfl, h2.2⟩
  · rintro (h1 | ⟨d, hd, h2⟩)
    · exact Or.inl h1
    · rcases he : d.data with _ | ⟨c, cs⟩
      · left
        have hs : lowerData s = [] := by
          unfold jsIncludes lowerData at h2
          rw [he] at h2
          simp only [List.map_nil] at h2
          exact leadMatch_nil_hay _ (by simpa [subOccurs] using h2)
        unfold jsIncludes
        rw [hs]
        exact subOccurs_nil _
      · right
        rw [hd]
        simp only [Bool.and_eq_true]
        refine ⟨?_, h2⟩
        rw [he]
        simp

/-- C6: a task is in the filtered view exactly when it is in the
collection and satisfies both the spec's text match and the spec's
category match, for each of the six filter values. -/
theorem C6_filter_iff (tasks : List Task) (f : Filter) (s : String) (t : Task) :
    t ∈ filteredTasks tasks f s ↔
      t ∈ tasks ∧ specTextMatch t s ∧ specCategoryMatch t f := by
  unfold filteredTasks
  rw [List.mem_filter]
  refine and_congr_right (fun _ => ?_)
  cases f <;>
    simp [passesFilter, specCategoryMatch, matchesSearch_iff, and_comm]

/-- C7: the overdue statistic counts exactly the tasks that are not
completed, have a present due date, and whose due date is in the past;
a completed task never tests overdue, and dropping the completed tasks
leaves the overdue count unchanged. -/
theorem C7_overdue_stats (ts : List Task) (now : Nat) :
    ((statsOf ts now).overdue
        = (ts.filter (fun t =>
            !t.completed && t.dueDate.elim false (fun d => decide (d < now)))).length)
      ∧ (∀ t ∈ ts, t.completed = true → isOverdue t now = false)
      ∧ (statsOf (ts.filter (fun t => !t.completed)) now).overdue
          = (statsOf ts now).overdue := by
  refine ⟨?_, ?_, ?_⟩
  · unfold statsOf
    simp only []
    refine congrArg List.length (List.filter_congr ?_)
    intro t _
    unfold isOverdue
    cases t.dueDate <;> simp [Option.elim]
  · intro t _ hc
    simp [isOverdue, hc]
  · unfold statsOf
    simp only [List.filter_filter]
    refine congrArg List.length (List.filter_congr ?_)
    intro t _
    cases hc : t.completed <;> simp [isOverdue, hc]

/-- C8 counterexample: with search term zzz the sample task matches
neither the pending nor the completed view, so the two views do not
partition the whole collection. -/
theorem C8_counterexample :
    sampleTask ∈ [sampleTask] ∧
      sampleTask ∉ filteredTasks [sampleTask] Filter.pending ("zzz") ∧
      sampleTask ∉ filteredTasks [sampleTask] Filter.completed ("zzz") := by
  decide

theorem matchesSearch_empty (t : Task) : matchesSearch t ("") = true := by
  unfold matchesSearch jsIncludes
  have h0 : lowerData ("") = [] := rfl
  rw [h0, subOccurs_nil]
  simp

/-- C8 (amended): a task of the collection that matches the search term
appears in exactly one of the pending and completed views; a task that
does not match the search term appears in neither; with the empty search
term every task matches, so the two views partition the whole
collection. -/
theorem C8_partition (ts : List Task) (s : String) (t : Task)
    (ht : t ∈ ts) :
    (matchesSearch t s = true →
        (t ∈ filteredTasks ts Filter.pending s ∧
            t ∉ filteredTasks ts Filter.completed s) ∨
          (t ∉ filteredTasks ts Filter.pending s ∧
            t ∈ filteredTasks ts Filter.completed s)) ∧
      (matchesSearch t s = false →
        t ∉ filteredTasks ts Filter.pending s ∧
          t ∉ filteredTasks ts Filter.completed s) ∧
      (s = "" →
        (t ∈ filteredTasks ts Filter.pending s ∧
            t ∉ filteredTasks ts Filter.completed s) ∨
          (t ∉ filteredTasks ts Filter.pending s ∧
            t ∈ filteredTasks ts Filter.completed s)) := by
  have hmain : matchesSearch t s = true →
      (t ∈ filteredTasks ts Filter.pending s ∧
          t ∉ filteredTasks ts Filter.completed s) ∨
        (t ∉ filteredTasks ts Filter.pending s ∧
          t ∈ filteredTasks ts Filter.completed s) := by
    intro hm
    by_cases hc : t.completed = true
    · right
      constructor
      · simp [filteredTasks, List.mem_filter, passesFilter, hc]
      · simp [filteredTasks, List.mem_filter, passesFilter, hc, hm, ht]
    · left
      rw [Bool.not_eq_true] at hc
      constructor
      · simp [filteredTasks, List.mem_filter, passesFilter, hc, hm, ht]
      · simp [filteredTasks, List.mem_filter, passesFilter, hc]
  refine ⟨hmain, ?_, ?_⟩
  · intro hm
    constructor <;> simp [filteredTasks, List.mem_filter, passesFilter, hm]
  · intro hs
    subst hs
    exact hmain (matchesSearch_empty t)

/-- Witness for C8 at the sample task and the empty search term. -/
theorem C8_partition_witness :
    (matchesSearch sampleTask ("") = true →
        (sampleTask ∈ filteredTasks [sampleTask] Filter.pending ("") ∧
            sampleTask ∉ filteredTasks [sampleTask] Filter.completed ("")) ∨
          (sampleTask ∉ filteredTasks [sampleTask] Filter.pending ("") ∧
            sampleTask ∈ filteredTasks [sampleTask] Filter.completed (""))) ∧
      (matchesSearch sampleTask ("") = false →
        sampleTask ∉ filteredTasks [sampleTask] Filter.pending ("") ∧
          sampleTask ∉ filteredTasks [sampleTask] Filter.completed ("")) ∧
      (("" : String) = ("" : String) →
        (sampleTask ∈ filteredTasks [sampleTask] Filter.pending ("") ∧
            sampleTask ∉ filteredTasks [sampleTask] Filter.completed ("")) ∨
          (sampleTask ∉ filteredTasks [sampleTask] Filter.pending ("") ∧
            sampleTask ∈ filteredTasks [sampleTask] Filter.completed (""))) :=
  C8_partition [sampleTask] ("") sampleTask (by decide)

/-! The completed/completedAt relation (C2), toggling twice (C3) and id
uniqueness (C4). -/

/-- The completed/completedAt relation the code maintains: a completed
task carries a completion timestamp; an incomplete task's completedAt is
either the absent field or the JS value null. -/
def completedAtInv (t : Task) : Prop :=
  (t.completed = true → ∃ n, t.completedAt = some (some n)) ∧
    (t.completed = false → t.completedAt = none ∨ t.completedAt = some none)

theorem mem_updateTask {t : Task} {i : Nat} {u : Updates} {s : List Task}
    (h : t ∈ updateTask i u s) :
    ∃ t0 ∈ s, t = if t0.id = i then applyUpdates t0 u else t0 := by
  rcases List.mem_map.mp h with ⟨t0, ht0, he⟩
  exact ⟨t0, ht0, he.symm⟩

theorem completedAtInv_toggle (t t0 : Task) (now : Nat) :
    completedAtInv (applyUpdates t (toggleUpdates t0 now)) := by
  cases hc : t0.completed <;>
    simp [completedAtInv, applyUpdates, toggleUpdates, hc]

theorem runFrom_completedAtInv (ops : List Op) :
    ∀ s s2, (∀ t ∈ s, completedAtInv t) → runFrom s ops = some s2 →
      ∀ t ∈ s2, completedAtInv t := by
  induction ops with
  | nil =>
      intro s s2 h hr
      simp only [runFrom, Option.some.injEq] at hr
      exact hr ▸ h
  | cons op ops ih =>
      intro s s2 h hr
      simp only [runFrom] at hr
      cases hst : step s op with
      | none => rw [hst] at hr; cases hr
      | some s1 =>
          rw [hst] at hr
          refine ih s1 s2 ?_ hr
          cases op with
          | add d now =>
              simp only [step, addTask, Option.some.injEq] at hst
              subst hst
              intro t ht
              rcases List.mem_append.mp ht with hm | hm
              · exact h t hm
              · simp only [List.mem_singleton] at hm
                subst hm
                exact ⟨by simp, by simp⟩
          | update i d =>
              simp only [step, Option.some.injEq] at hst
              subst hst
              intro t ht
              rcases mem_updateTask ht with ⟨t0, ht0, he⟩
              subst he
              by_cases hc : t0.id = i
              · rw [if_pos hc]
                have h0 := h t0 ht0
                exact ⟨fun hcb => h0.1 hcb, fun hcb => h0.2 hcb⟩
              · rw [if_neg hc]
                exact h t0 ht0
          | toggle i now =>
              simp only [step, toggleComplete] at hst
              cases hfind : s.find? (fun t => t.id == i) with
              | none => rw [hfind] at hst; cases hst
              | some t0 =>
                  rw [hfind] at hst
                  simp only [Option.some.injEq] at hst
                  subst hst
                  intro t ht
                  rcases mem_updateTask ht with ⟨t1, ht1, he⟩
                  subst he
                  by_cases hc : t1.id = i
                  · rw [if_pos hc]
                    exact completedAtInv_toggle t1 t0 now
                  · rw [if_neg hc]
                    exact h t1 ht1
          | delete i c =>
              simp only [step, deleteTask] at hst
              cases c with
              | false =>
                  simp only [if_neg Bool.false_ne_true, Option.some.injEq] at hst
                  subst hst
                  exact h
              | true =>
                  simp only [if_pos rfl, Option.some.injEq] at hst
                  subst hst
                  intro t ht
                  exact h t (List.mem_of_mem_filter ht)

/-- C2 counterexample: add a task then toggle it twice; the state is
reachable and its only task is incomplete yet its completedAt field is
present (holding null), so absence-iff-incomplete fails. -/
theorem C2_counterexample :
    run [Op.add sampleDraft 1, Op.toggle 1 2, Op.toggle 1 3]
        = some [toggledOffTask] ∧
      toggledOffTask.completed = false ∧ toggledOffTask.completedAt ≠ none := by
  decide

/-- C2 (amended): in every reachable state, a completed task carries a
completion timestamp, and an incomplete task's completedAt is the absent
field or the JS value null (the code writes null, not absence, when a
task is toggled back to incomplete); the relation is preserved by all
four operations. -/
theorem C2_completedAt_invariant (ops : List Op) (ts : List Task)
    (h : run ops = some ts) : ∀ t ∈ ts, completedAtInv t :=
  runFrom_completedAtInv ops [] ts (by simp) h

/-- Witness for C2 on the reachable state after add and two toggles. -/
theorem C2_completedAt_invariant_witness : completedAtInv toggledOffTask :=
  C2_completedAt_invariant [Op.add sampleDraft 1, Op.toggle 1 2, Op.toggle 1 3]
    [toggledOffTask] (by decide) toggledOffTask (by decide)

/-- C3 counterexample: a fresh task has no completedAt field; toggling
twice brings completed back to false but leaves completedAt = null (a
present field), not the original absent field. -/
theorem C3_counterexample :
    (toggleComplete 1 2 [freshTask]).bind (toggleComplete 1 3)
        = some [toggledOffTask] ∧
      toggledOffTask.completed = freshTask.completed ∧
      toggledOffTask.completedAt ≠ freshTask.completedAt := by
  decide

/-- C3 (amended): toggling a present task twice restores its completed
flag; its completedAt ends as the JS value null when the task was
incomplete (equal to the original only if the original was null) and as
the second toggle's timestamp when it was complete. -/
theorem C3_toggle_twice (i n1 n2 : Nat) (ts ts1 ts2 : List Task) (t : Task)
    (hf : ts.find? (fun x => x.id == i) = some t)
    (h1 : toggleComplete i n1 ts = some ts1)
    (h2 : toggleComplete i n2 ts1 = some ts2) :
    ∀ t2, ts2.find? (fun x => x.id == i) = some t2 →
      t2.completed = t.completed ∧
      t2.completedAt = if t.completed then some (some n2) else some none := by
  unfold toggleComplete at h1
  rw [hf] at h1
  simp only [Option.some.injEq] at h1
  have hf1 : ts1.find? (fun x => x.id == i)
      = some (applyUpdates t (toggleUpdates t n1)) := by
    rw [← h1, find?_updateTask, hf]
    rfl
  unfold toggleComplete at h2
  rw [hf1] at h2
  simp only [Option.some.injEq] at h2
  intro t2 hf2
  rw [← h2, find?_updateTask, hf1] at hf2
  simp only [Option.map_some', Option.some.injEq] at hf2
  subst hf2
  cases hc : t.completed <;>
    simp [applyUpdates, toggleUpdates, hc]

/-- Witness for C3 on the one-task collection holding the fresh task. -/
theorem C3_toggle_twice_witness :
    toggledOffTask.completed = freshTask.completed ∧
      toggledOffTask.completedAt
        = if freshTask.completed then some (some 3) else some none :=
  C3_toggle_twice 1 2 3 [freshTask] [toggledOnTask] [toggledOffTask] freshTask
    (by decide) (by decide) (by decide) toggledOffTask (by decide)

theorem runFrom_ids_nodup (ops : List Op) :
    ∀ s ts, (addTimes ops).Nodup →
      (∀ t ∈ s, t.id ∉ addTimes ops) →
      (s.map Task.id).Nodup →
      runFrom s ops = some ts → (ts.map Task.id).Nodup := by
  induction ops with
  | nil =>
      intro s ts _ _ hnd hr
      simp only [runFrom, Option.some.injEq] at hr
      exact hr ▸ hnd
  | cons op ops ih =>
      intro s ts hat hni hnd hr
      simp only [runFrom] at hr
      cases hst : step s op with
      | none => rw [hst] at hr; cases hr
      | some s1 =>
          rw [hst] at hr
          cases op with
          | add d now =>
              simp only [step, Option.some.injEq] at hst
              subst hst
              simp only [addTimes] at hat hni
              refine ih _ ts (List.Nodup.of_cons hat) ?_ ?_ hr
              · intro t ht
                rcases List.mem_append.mp ht with hm | hm
                · exact fun hx =>
                    hni t hm (List.mem_cons_of_mem _ hx)
                · simp only [List.mem_singleton] at hm
                  subst hm
                  exact (List.nodup_cons.mp hat).1
              · simp only [addTask, List.map_append, List.map_cons, List.map_nil]
                rw [List.nodup_append]
                refine ⟨hnd, List.nodup_singleton _, ?_⟩
                intro x hx hx2
                simp only [List.mem_singleton] at hx2
                subst hx2
                rcases List.mem_map.mp hx with ⟨t, ht, he⟩
                exact hni t ht (he ▸ List.mem_cons_self _ _)
          | update i d =>
              simp only [step, Option.some.injEq] at hst
              subst hst
              simp only [addTimes] at hat hni
              refine ih _ ts hat ?_ ?_ hr
              · intro t ht
                rcases mem_updateTask ht with ⟨t0, ht0, he⟩
                have : t.id = t0.id := by
                  subst he
                  by_cases hc : t0.id = i <;> simp [hc, applyUpdates_id]
                rw [this]
                exact hni t0 ht0
              · rw [updateTask_map_id]
                exact hnd
          | toggle i now =>
              simp only [step, toggleComplete] at hst
              cases hfind : s.find? (fun t => t.id == i) with
              | none => rw [hfind] at hst; cases hst
              | some t0 =>
                  rw [hfind] at hst
                  simp only [Option.some.injEq] at hst
                  subst hst
                  simp only [addTimes] at hat hni
                  refine ih _ ts hat ?_ ?_ hr
                  · intro t ht
                    rcases mem_updateTask ht with ⟨t1, ht1, he⟩
                    have : t.id = t1.id := by
                      subst he
                      by_cases hc : t1.id = i <;> simp [hc, applyUpdates_id]
                    rw [this]
                    exact hni t1 ht1
                  · rw [updateTask_map_id]
                    exact hnd
          | delete i c =>
              simp only [step, deleteTask] at hst
              simp only [addTimes] at hat hni
              cases c with
              | false =>
                  simp only [if_neg Bool.false_ne_true, Option.some.injEq] at hst
                  subst hst
                  exact ih _ ts hat hni hnd hr
              | true =>
                  simp only [if_pos rfl, Option.some.injEq] at hst
                  subst hst
                  refine ih _ ts hat ?_ ?_ hr
                  · intro t ht
                    exact hni t (List.mem_of_mem_filter ht)
                  · exact List.Nodup.sublist
                      (List.Sublist.map Task.id (List.filter_sublist s)) hnd

/-- C4 counterexample: two addTask calls that read the same clock value
produce two tasks with the same id, so id uniqueness is not guaranteed
for every operation sequence. -/
theorem C4_counterexample :
    run [Op.add sampleDraft 5, Op.add sampleDraft 5] = some [task5, task5] ∧
      ¬ (([task5, task5] : List Task).map Task.id).Nodup := by
  decide

/-- C4 (amended): ids are pairwise distinct in every state reached from
the empty collection, provided the clock values the addTask calls read
are pairwise distinct (addTask itself performs no deduplication; a
repeated Date.now() value yields a duplicate id). -/
theorem C4_ids_nodup (ops : List Op) (ts : List Task)
    (hn : (addTimes ops).Nodup) (h : run ops = some ts) :
    (ts.map Task.id).Nodup :=
  runFrom_ids_nodup ops [] ts hn (by simp) (by simp) h

/-- Witness for C4 on a single add. -/
theorem C4_ids_nodup_witness : (([task5] : List Task).map Task.id).Nodup :=
  C4_ids_nodup [Op.add sampleDraft 5] [task5] (by decide) (by decide)

/-! The displayed sort (C5). The comparator is not transitive: the
due-date branch and the createdAt fallback can disagree through a task
without a due date, so only the completion/priority keys sort globally;
the due/created rules hold between adjacent tasks of the output. -/

/-- The completion key of the comparator: incomplete sorts first. -/
def completedRank (t : Task) : Nat :=
  if t.completed then 1 else 0

/-- The transitive part of the comparator: completion rank, then
priority descending. -/
def keyLE (a b : Task) : Prop :=
  completedRank a < completedRank b ∨
    (completedRank a = completedRank b ∧
      priorityOrder b.priority ≤ priorityOrder a.priority)

theorem cmpT_flip {a b : Task} (h : ¬ cmpT a b ≤ 0) : cmpT b a ≤ 0 := by
  unfold cmpT at h ⊢
  rcases a with ⟨_, _, _, pa, da, ca, ra, _⟩
  rcases b with ⟨_, _, _, pb, db, cb, rb, _⟩
  cases ca <;> cases cb <;> cases pa <;> cases pb <;>
    cases da <;> cases db <;> simp_all [priorityOrder] <;> omega

theorem cmpT_le_keyLE {a b : Task} (h : cmpT a b ≤ 0) : keyLE a b := by
  unfold cmpT at h
  unfold keyLE completedRank
  rcases a with ⟨_, _, _, pa, da, ca, ra, _⟩
  rcases b with ⟨_, _, _, pb, db, cb, rb, _⟩
  cases ca <;> cases cb <;> cases pa <;> cases pb <;>
    cases da <;> cases db <;> simp_all [priorityOrder]

theorem cmpT_not_le_keyLE {a b : Task} (h : ¬ cmpT a b ≤ 0) : keyLE b a := by
  unfold cmpT at h
  unfold keyLE completedRank
  rcases a with ⟨_, _, _, pa, da, ca, ra, _⟩
  rcases b with ⟨_, _, _, pb, db, cb, rb, _⟩
  cases ca <;> cases cb <;> cases pa <;> cases pb <;>
    cases da <;> cases db <;> simp_all [priorityOrder]

theorem keyLE_trans {a b c : Task} (h1 : keyLE a b) (h2 : keyLE b c) :
    keyLE a c := by
  unfold keyLE completedRank at h1 h2 ⊢
  cases hca : a.completed <;> cases hcb : b.completed <;>
    cases hcc : c.completed <;> simp_all <;> omega

theorem chain_le_orderedInsert (a : Task) :
    ∀ l : List Task, List.Chain' (fun x y => cmpT x y ≤ 0) l →
      List.Chain' (fun x y => cmpT x y ≤ 0)
        (List.orderedInsert (fun x y => cmpT x y ≤ 0) a l) := by
  intro l
  induction l with
  | nil => intro _; simp [List.orderedInsert]
  | cons b l ih =>
      intro h
      by_cases hab : cmpT a b ≤ 0
      · simp only [List.orderedInsert, if_pos hab]
        exact List.chain'_cons.mpr ⟨hab, h⟩
      · simp only [List.orderedInsert, if_neg hab]
        have hrec := ih h.tail
        rcases l with _ | ⟨c, l2⟩
        · simp only [List.orderedInsert] at hrec ⊢
          exact List.chain'_cons.mpr ⟨cmpT_flip hab, hrec⟩
        · by_cases hac : cmpT a c ≤ 0
          · simp only [List.orderedInsert, if_pos hac] at hrec ⊢
            exact List.chain'_cons.mpr ⟨cmpT_flip hab, hrec⟩
          · simp only [List.orderedInsert, if_neg hac] at hrec ⊢
            have hbc : cmpT b c ≤ 0 := (List.chain'_cons.mp h).1
            exact List.chain'_cons.mpr ⟨hbc, hrec⟩

theorem pairwise_keyLE_orderedInsert (a : Task) :
    ∀ l : List Task, List.Pairwise keyLE l →
      List.Pairwise keyLE (List.orderedInsert (fun x y => cmpT x y ≤ 0) a l) := by
  intro l
  induction l with
  | nil => intro _; simp [List.orderedInsert]
  | cons b l ih =>
      intro h
      rcases List.pairwise_cons.mp h with ⟨hb, hl⟩
      by_cases hab : cmpT a b ≤ 0
      · simp only [List.orderedInsert, if_pos hab]
        refine List.pairwise_cons.mpr ⟨?_, h⟩
        intro x hx
        rcases List.mem_cons.mp hx with hxe | hxl
        · exact hxe ▸ cmpT_le_keyLE hab
        · exact keyLE_trans (cmpT_le_keyLE hab) (hb x hxl)
      · simp only [List.orderedInsert, if_neg hab]
        refine List.pairwise_cons.mpr ⟨?_, ih hl⟩
        intro x hx
        rcases (List.mem_orderedInsert _).mp hx with hxe | hxl
        · exact hxe ▸ cmpT_not_le_keyLE hab
        · exact hb x hxl

theorem chain_le_sortTasks (l : List Task) :
    List.Chain' (fun x y => cmpT x y ≤ 0) (sortTasks l) := by
  unfold sortTasks
  induction l with
  | nil => simp [List.insertionSort]
  | cons b l ih =>
      simp only [List.insertionSort]
      exact chain_le_orderedInsert b _ ih

theorem pairwise_keyLE_sortTasks (l : List Task) :
    List.Pairwise keyLE (sortTasks l) := by
  unfold sortTasks
  induction l with
  | nil => simp [List.insertionSort]
  | cons b l ih =>
      simp only [List.insertionSort]
      exact pairwise_keyLE_orderedInsert b _ ih

theorem keyLE_completed {a b : Task} (h : keyLE a b) :
    a.completed = true → b.completed = true := by
  intro ha
  cases hb : b.completed
  · unfold keyLE completedRank at h
    simp [ha, hb] at h
  · rfl

theorem keyLE_priority {a b : Task} (h : keyLE a b)
    (hc : a.completed = b.completed) :
    priorityOrder b.priority ≤ priorityOrder a.priority := by
  unfold keyLE completedRank at h
  rw [hc] at h
  rcases h with h | h
  · exact absurd h (lt_irrefl _)
  · exact h.2

theorem cmpT_le_due_created {a b : Task} (h : cmpT a b ≤ 0)
    (hc : a.completed = b.completed) (hp : a.priority = b.priority) :
    (∀ da db, a.dueDate = some da → b.dueDate = some db → da ≤ db) ∧
      ((a.dueDate = none ∨ b.dueDate = none) → b.createdAt ≤ a.createdAt) := by
  unfold cmpT at h
  rw [if_neg (by simp [hc]), if_neg (by simp [hp])] at h
  constructor
  · intro da db hda hdb
    rw [hda, hdb] at h
    simp only [] at h
    omega
  · intro hd
    cases hda : a.dueDate <;> cases hdb : b.dueDate <;>
      rw [hda, hdb] at h <;> simp_all

/-! Concrete tasks for the sort counterexample: all incomplete, all
medium priority. The comparator orders taskDueLate before taskNoDue
(creation fallback) and taskNoDue before taskDueEarly (creation
fallback), yet the due-date rule demands taskDueEarly before
taskDueLate: no output order can satisfy the claim. -/

/-- Incomplete medium task, dueDate 10, createdAt 3. -/
def taskDueLate : Task :=
  { id := 11
    title := "a"
    description := none
    priority := .medium
    dueDate := some 10
    completed := false
    createdAt := 3
    completedAt := none }

/-- Incomplete medium task, no dueDate, createdAt 2. -/
def taskNoDue : Task :=
  { id := 12
    title := "b"
    description := none
    priority := .medium
    dueDate := none
    completed := false
    createdAt := 2
    completedAt := none }

/-- Incomplete medium task, dueDate 1, createdAt 1. -/
def taskDueEarly : Task :=
  { id := 13
    title := "c"
    description := none
    priority := .medium
    dueDate := some 1
    completed := false
    createdAt := 1
    completedAt := none }

/-- C5 counterexample: in the displayed order, taskDueLate (due 10)
precedes taskDueEarly (due 1) although both are incomplete, of equal
priority, and both carry due dates — the global due-date-ascending
clause fails for this list. -/
theorem C5_counterexample :
    sortTasks [taskDueLate, taskNoDue, taskDueEarly]
        = [taskDueLate, taskNoDue, taskDueEarly] ∧
      taskDueLate.completed = taskDueEarly.completed ∧
      taskDueLate.priority = taskDueEarly.priority ∧
      taskDueLate.dueDate = some 10 ∧ taskDueEarly.dueDate = some 1 := by
  decide

/-- C5 (amended): the displayed sort is a permutation of the input; no
completed task precedes an incomplete one; among equal completion,
priority is descending; between ADJACENT tasks of equal completion and
priority the due-date-ascending rule (both dates present) and the
creation-descending fallback hold; an input already in comparator order
is left unchanged (stability on ties). The due/created rules do not hold
between non-adjacent tasks because the comparator is not transitive. -/
theorem C5_sorted_display (l : List Task) :
    (sortTasks l).Perm l ∧
      List.Pairwise (fun a b => a.completed = true → b.completed = true)
        (sortTasks l) ∧
      List.Pairwise (fun a b => a.completed = b.completed →
          priorityOrder b.priority ≤ priorityOrder a.priority) (sortTasks l) ∧
      List.Chain' (fun a b => a.completed = b.completed →
          a.priority = b.priority →
          (∀ da db, a.dueDate = some da → b.dueDate = some db → da ≤ db) ∧
            ((a.dueDate = none ∨ b.dueDate = none) → b.createdAt ≤ a.createdAt))
        (sortTasks l) ∧
      (List.Pairwise (fun a b => cmpT a b ≤ 0) l → sortTasks l = l) := by
  refine ⟨List.perm_insertionSort _ l, ?_, ?_, ?_, ?_⟩
  · exact (pairwise_keyLE_sortTasks l).imp (fun h => keyLE_completed h)
  · exact (pairwise_keyLE_sortTasks l).imp (fun h hc => keyLE_priority h hc)
  · refine List.Chain'.imp ?_ (chain_le_sortTasks l)
    intro a b h hc hp
    exact cmpT_le_due_created h hc hp
  · intro hp
    exact List.Sorted.insertionSort_eq hp

end TaskManager
